import Mathlib

/-!
# Verification of the circler build-graph compiler

A shallow embedding of the circler repository (`src/circler/drv.py`,
`src/circler/steps.py`, `src/circler/circleci.py`): Python dicts become
association lists (preserving insertion order, as Python dicts do),
dataclasses become structures, and the serialization rules registered via
`singledispatch` become per-type Lean functions producing a JSON-like tree.
-/

namespace Circler

/-- Association-list lookup, mirroring Python `d[k]` / `d.get(k)` on a dict
whose entries are kept in insertion order (first match wins; Python dicts
cannot hold duplicate keys, so this agrees with dict lookup). -/
def alookup {α : Type} (k : String) : List (String × α) → Option α
  | [] => none
  | (k', v) :: t => if k' = k then some v else alookup k t

/-- Python dict assignment `d[k] = v`: if the key is present, the value is
replaced in place (keeping the key's position); otherwise the pair is
appended at the end, preserving insertion order. -/
def dictSet {α : Type} (l : List (String × α)) (k : String) (v : α) : List (String × α) :=
  match l with
  | [] => [(k, v)]
  | (k', v') :: t => if k' = k then (k, v) :: t else (k', v') :: dictSet t k v

/-- JSON/YAML-compatible value tree: the output domain of `serialize`. -/
inductive JVal where
  | str : String → JVal
  | bool : Bool → JVal
  | list : List JVal → JVal
  | obj : List (String × JVal) → JVal

/-- Python `dict.update(m)`: assign every pair of `m` into `l` in order. -/
def dictUpdate {α : Type} (l m : List (String × α)) : List (String × α) :=
  m.foldl (fun acc kv => dictSet acc kv.1 kv.2) l

/-! ## The document model of `circleci.py`

Dataclasses become structures; a `DictRef[T]` is modelled by the key it
stores (its `_dict` pointer is the owning registry inside the single
`Pipeline` value). -/

structure Docker where
  image : String

structure ExecutorS where
  kind : Docker
  resource_class : String

/-- `Executor.docker` static constructor. -/
def ExecutorS.docker (image : String) (resource_class : String) : ExecutorS :=
  { kind := { image := image }, resource_class := resource_class }

structure Run where
  name : String
  command : String
  shell : Option String := none
  no_output_timeout : Option String := none

/-- `type Step = Run | Checkout` (the `Checkout` dataclass has no fields). -/
inductive Step where
  | run : Run → Step
  | checkout : Step

structure Parameter where
  type : String
  default : Option String

/-- `StepsJob`: the `executor` field is a `DictRef[Executor]`, modelled by
its key. -/
structure StepsJob where
  executor : String
  steps : List Step
  parameters : Option (List (String × Parameter)) := none
  environment : Option (List (String × String)) := none
  shell : Option String := none

/-- `type Job = StepsJob | NoOpJob`. -/
inductive Job where
  | steps : StepsJob → Job
  | noop : Job

/-- `JobInstance`: `job` and the `requires` entries are `DictRef[Job]`
values, modelled by their keys; `arguments` values are already
serialization trees (they are plain data in the source). -/
structure JobInstance where
  job : String
  arguments : List (String × JVal) := []
  requires : List String := []

inductive Cond where
  | equal : String → String → Cond
  | not : Cond → Cond

structure Workflow where
  jobs : List JobInstance
  when : Option Cond := none

/-- The `Pipeline` root dataclass: four registries plus `version` and
`setup`, registries in insertion order. -/
structure Pipeline where
  version : String := "2.1"
  jobs : List (String × Job) := []
  workflows : List (String × Workflow) := []
  executors : List (String × ExecutorS) := []
  parameters : List (String × Parameter) := []
  setup : Bool := false

/-- `DictRef.__init__(d, key, init)`: when `init` is not `None` it is stored
under `key` by a plain dict assignment — an entity already stored under the
same key is overwritten, with no collision check — and the reference keeps
only the key. -/
def dictRefInit {α : Type} (d : List (String × α)) (key : String) (init : Option α) :
    List (String × α) × String :=
  match init with
  | some v => (dictSet d key v, key)
  | none => (d, key)

/-- `Pipeline.job(name, j)`: declare a job in the `jobs` registry. -/
def Pipeline.job (p : Pipeline) (name : String) (j : Job) : Pipeline × String :=
  let r := dictRefInit p.jobs name (some j)
  ({ p with jobs := r.1 }, r.2)

/-- `Pipeline.workflow(name, w)`. -/
def Pipeline.workflow (p : Pipeline) (name : String) (w : Workflow) : Pipeline × String :=
  let r := dictRefInit p.workflows name (some w)
  ({ p with workflows := r.1 }, r.2)

/-- `Pipeline.executor(name, e)`. -/
def Pipeline.executor (p : Pipeline) (name : String) (e : ExecutorS) : Pipeline × String :=
  let r := dictRefInit p.executors name (some e)
  ({ p with executors := r.1 }, r.2)

/-- `Pipeline.parameter(name, p)`. -/
def Pipeline.parameter (p : Pipeline) (name : String) (pa : Parameter) : Pipeline × String :=
  let r := dictRefInit p.parameters name (some pa)
  ({ p with parameters := r.1 }, r.2)

/-! ## Serialization (`serialize` and its `singledispatch` registrations) -/

/-- The dataclass branch of `serialize_base`: emit the fields in declaration
order, skipping exactly those whose value is `None` (sparse serialization).
Fields are presented as `(name, serialized value or none)` pairs. -/
def serialize_base (fields : List (String × Option JVal)) : List (String × JVal) :=
  fields.filterMap (fun kv => kv.2.map (fun v => (kv.1, v)))

/-- `serialize` on a `DictRef`: the key string, the registry is not
consulted. -/
def serializeRef (key : String) : JVal := .str key

/-- `serialize` on `Docker`. -/
def serializeDocker (x : Docker) : JVal :=
  .obj [("docker", .list [.obj (serialize_base [("image", some (.str x.image))])])]

/-- `serialize` on `Executor`: the serialized `kind` updates the sparse
field dict computed with `kind` skipped. -/
def serializeExecutor (x : ExecutorS) : JVal :=
  .obj (dictUpdate
    (serialize_base [("resource_class", some (.str x.resource_class))])
    [("docker", .list [.obj (serialize_base [("image", some (.str x.kind.image))])])])

/-- `serialize` on `Run`. -/
def serializeRun (x : Run) : JVal :=
  .obj [("run", .obj (serialize_base
    [("name", some (.str x.name)),
     ("command", some (.str x.command)),
     ("shell", x.shell.map .str),
     ("no_output_timeout", x.no_output_timeout.map .str)]))]

/-- `serialize` on a step: a `Run` object or the plain string "checkout". -/
def serializeStep : Step → JVal
  | .run r => serializeRun r
  | .checkout => .str "checkout"

/-- `serialize` on `Parameter` (no registration: generic dataclass rule). -/
def serializeParameter (x : Parameter) : JVal :=
  .obj (serialize_base [("type", some (.str x.type)), ("default", x.default.map .str)])

/-- `serialize` on a `Job`: a `StepsJob` uses the generic dataclass rule, a
`NoOpJob` has a registered serializer. -/
def serializeJob : Job → JVal
  | .steps sj =>
    .obj (serialize_base
      [("executor", some (serializeRef sj.executor)),
       ("steps", some (.list (sj.steps.map serializeStep))),
       ("parameters", sj.parameters.map (fun ps =>
          .obj (ps.map (fun kv => (kv.1, serializeParameter kv.2))))),
       ("environment", sj.environment.map (fun e =>
          .obj (e.map (fun kv => (kv.1, JVal.str kv.2))))),
       ("shell", sj.shell.map .str)])
  | .noop => .obj [("type", .str "no-op")]

/-- `serialize` on `JobInstance`: the serialized arguments dict, with a
`requires` key assigned (present even when the list is empty), nested under
the referenced job key. -/
def serializeJobInstance (x : JobInstance) : JVal :=
  .obj [(x.job, .obj (dictSet x.arguments "requires" (.list (x.requires.map JVal.str))))]

/-- `serialize` on conditions (`Equal`, `Not`). -/
def serializeCond : Cond → JVal
  | .equal lhs rhs => .obj [("equal", .list [.str lhs, .str rhs])]
  | .not c => .obj [("not", serializeCond c)]

/-- `serialize` on `Workflow` (generic dataclass rule). -/
def serializeWorkflow (w : Workflow) : JVal :=
  .obj (serialize_base
    [("jobs", some (.list (w.jobs.map serializeJobInstance))),
     ("when", w.when.map serializeCond)])

/-- `serialize` on `Pipeline` (generic dataclass rule; no field of the
`Pipeline` dataclass can be `None`, so every key is emitted, registries
with no entries included). -/
def serializePipeline (p : Pipeline) : JVal :=
  .obj (serialize_base
    [("version", some (.str p.version)),
     ("jobs", some (.obj (p.jobs.map (fun kv => (kv.1, serializeJob kv.2))))),
     ("workflows", some (.obj (p.workflows.map (fun kv => (kv.1, serializeWorkflow kv.2))))),
     ("executors", some (.obj (p.executors.map (fun kv => (kv.1, serializeExecutor kv.2))))),
     ("parameters", some (.obj (p.parameters.map (fun kv => (kv.1, serializeParameter kv.2))))),
     ("setup", some (.bool p.setup))])

/-! ## Text emission: `dump_json` / `dump_yaml` -/

/-- Insert one pair into a key-sorted pair list (stable: equal keys keep
their original relative order, as Python `sorted` does). -/
def insertPairByKey (kv : String × JVal) : List (String × JVal) → List (String × JVal)
  | [] => [kv]
  | h :: t => if kv.1 < h.1 then kv :: h :: t else h :: insertPairByKey kv t

/-- Sort mapping items by key, as `sorted(mapping)` does on `(key, value)`
tuples (tuple comparison looks at the key first; duplicate keys cannot
occur in a dict). -/
def sortPairsByKey : List (String × JVal) → List (String × JVal)
  | [] => []
  | h :: t => insertPairByKey h (sortPairsByKey t)

/-- The mapping-key ordering applied by `yaml.dump`: its default
`sort_keys=True` makes the representer sort every mapping node by key
before emission (`Representer.represent_mapping`), recursively. -/
def yamlSortKeys : JVal → JVal
  | .str s => .str s
  | .bool b => .bool b
  | .list l => .list (l.attach.map (fun x => yamlSortKeys x.1))
  | .obj l => .obj (sortPairsByKey (l.attach.map (fun x => (x.1.1, yamlSortKeys x.1.2))))
decreasing_by
  · exact Nat.lt_of_lt_of_le (by simpa using List.sizeOf_lt_of_mem x.2) (by simp)
  · have hm : sizeOf x.1 < sizeOf l := List.sizeOf_lt_of_mem x.2
    have h2 : sizeOf x.1.2 < sizeOf x.1 := by obtain ⟨a, b⟩ := x.1; simp
    have h3 : sizeOf (JVal.obj l) = 1 + sizeOf l := by simp
    omega

/-- `json.dumps` escaping of one character (the escapes that can occur in
this document model). -/
def jsonEscapeChar (c : Char) : String :=
  if c = '"' then "\\\"" else if c = '\\' then "\\\\" else if c = '\n' then "\\n"
  else if c = '\t' then "\\t" else if c = '\x0d' then "\\r" else String.singleton c

def jsonEscape (s : String) : String := String.join (s.data.map jsonEscapeChar)

/-- `json.dumps` text emission: insertion order of every dict is preserved
(`sort_keys` defaults to `False` for `json.dumps`). -/
def jsonPrint : JVal → String
  | .str s => "\"" ++ jsonEscape s ++ "\""
  | .bool b => if b then "true" else "false"
  | .list l => "[" ++ String.intercalate ", " (l.attach.map (fun x => jsonPrint x.1)) ++ "]"
  | .obj l => "\x7b" ++ String.intercalate ", "
      (l.attach.map (fun x => "\"" ++ jsonEscape x.1.1 ++ "\": " ++ jsonPrint x.1.2)) ++ "\x7d"
decreasing_by
  · exact Nat.lt_of_lt_of_le (by simpa using List.sizeOf_lt_of_mem x.2) (by simp)
  · have hm : sizeOf x.1 < sizeOf l := List.sizeOf_lt_of_mem x.2
    have h2 : sizeOf x.1.2 < sizeOf x.1 := by obtain ⟨a, b⟩ := x.1; simp
    have h3 : sizeOf (JVal.obj l) = 1 + sizeOf l := by simp
    omega

/-- `Pipeline.dump_json` as the emitted tree: `json.dumps` keeps dict
insertion order, so the tree is the serialization itself. -/
def dump_json_tree (p : Pipeline) : JVal := serializePipeline p

/-- `Pipeline.dump_yaml` as the emitted tree: `yaml.dump` runs with its
default `sort_keys=True`, so every mapping is emitted with its keys
sorted. -/
def dump_yaml_tree (p : Pipeline) : JVal := yamlSortKeys (serializePipeline p)

/-- `Pipeline.dump_json` (text). -/
def dump_json (p : Pipeline) : String := jsonPrint (dump_json_tree p)

/-- `Pipeline.dump_json_str`: `json.dumps` applied to the JSON text, i.e.
the text re-quoted and escaped as a JSON string. -/
def dump_json_str (p : Pipeline) : String := jsonPrint (.str (dump_json p))

/-- The keys of the mapping stored under `k` in a serialized tree (used to
state the round-trip property on the `jobs` and `workflows` entries). -/
def objKeysAt (v : JVal) (k : String) : Option (List String) :=
  match v with
  | .obj l =>
    match alookup k l with
    | some (.obj m) => some (m.map Prod.fst)
    | _ => none
  | _ => none

/-! ## The YAML string presenter (`string_presenter`) -/

/-- The whitespace characters stripped by Python `str.lstrip()` (ASCII
range): space, tab, newline, carriage return, vertical tab, form feed. -/
def isPySpace (c : Char) : Bool :=
  c = ' ' || c = '\t' || c = '\n' || c = '\x0d' || c = '\x0b' || c = '\x0c'

/-- Python `data.lstrip()`. -/
def pyLstrip (s : String) : String := ⟨s.data.dropWhile isPySpace⟩

/-- A scalar node as produced by `dumper.represent_scalar(tag, value,
style)`; `style = none` is the default (plain) style. -/
structure ScalarNode where
  tag : String
  value : String
  style : Option Char := none

/-- `string_presenter`: a string containing a newline (the test
`"\n" in data` with a one-character needle, i.e. membership of the newline
character) is lstripped and represented with the block-literal style `|`;
any other string is represented with the default plain style and its value
unchanged. -/
def string_presenter (data : String) : ScalarNode :=
  if data.data.contains '\n' then
    { tag := "tag:yaml.org,2002:str", value := pyLstrip data, style := some '|' }
  else
    { tag := "tag:yaml.org,2002:str", value := data, style := none }

/-! ## The build-unit graph (`drv.py`) -/

/-- The `Derivation` dataclass. Its `deps` field holds other derivations of
the same name-keyed dict; since every stored derivation carries its unique
name, a dependency is modelled by the name of the derivation it points
to. -/
structure Derivation where
  name : String
  drv : String
  outputs : List (String × String)
  deps : List String
  deriving DecidableEq

/-- `get_safe_name`: `name.replace(".", "_")` — with a one-character
pattern this is a character-wise replacement. -/
def get_safe_name (name : String) : String :=
  ⟨name.data.map (fun c => if c = '.' then '_' else c)⟩

/-- `filter_cached`, with the batched `nix path-info` cache query abstracted
as the predicate `present o` (meaning `result.get(o) is not None`): the
`for`/`else` loop deletes a derivation exactly when every one of its output
paths is present, so an entry is kept exactly when some output is absent.
The dict is keyed by derivation name, matching the `del drvs[d.name]` in
the source. -/
def filter_cached (present : String → Bool) (drvs : List (String × Derivation)) :
    List (String × Derivation) :=
  drvs.filter (fun kv => kv.2.outputs.any (fun o => !present o.2))

/-- `g[k].deps`: the dependency list of the node stored under key `k`
(empty when the key is absent; the source only looks up present keys). -/
def depsOf (g : List (String × Derivation)) (k : String) : List String :=
  match alookup k g with
  | some d => d.deps
  | none => []

/-- The inner loops of `prune_graph`: a dependency `dx` of `cur` survives
iff no current dependency `dy` of `cur` (including `dx` itself) lists `dx`
among its own dependencies; survivors are appended in their original
order. -/
def pruneDepsList (allDeps : String → List String) (ds : List String) : List String :=
  ds.filter (fun dx => !(ds.any (fun dy => (allDeps dy).contains dx)))

/-- `prune_graph`: every node is rebuilt with the same name, drv and
outputs and an initially empty dependency list that the kept edges are
appended to. -/
def pruneGraph (g : List (String × Derivation)) : List (String × Derivation) :=
  g.map (fun kv => (kv.1, { kv.2 with deps := pruneDepsList (depsOf g) kv.2.deps }))

/-! ## The pipeline compiler (`steps.py`) -/

/-- Python `str.strip()`. -/
def pyStrip (s : String) : String :=
  ⟨((s.data.dropWhile isPySpace).reverse.dropWhile isPySpace).reverse⟩

/-- `nix_conf(cores, max_jobs)`. -/
def nix_conf (cores max_jobs : Nat) : String :=
  "\nexperimental-features = nix-command flakes ca-derivations\ncores = "
    ++ toString cores ++ "\nmax-jobs = " ++ toString max_jobs
    ++ "\nsandbox = false\nsandbox-fallback = true\nsystem-features = nixos-test benchmark big-parallel kvm\nsubstituters = https://cache.nixos.org/\ntrusted-public-keys = cache.nixos.org-1:6NCHdD59X431o0gWypbMrAURkbJ16ZPMQFGspcDShjY=\ntrusted-users = root circleci\n"

/-- The `nix_setup` run step. -/
def nix_setup : Run :=
  { name := "Setup nix", shell := some "/bin/sh",
    command := "\ncat \\<< \x27EOF\x27 >/etc/nix/nix.conf\n" ++ pyStrip (nix_conf 4 2) ++ "\nEOF\n" }

/-- `attic_setup(url, name, cache)`. -/
def attic_setup (url name cache : String) : Run :=
  { name := "Setup Attic", shell := some "/bin/sh",
    command := "\nnix run nixpkgs#attic-client -- login " ++ name ++ " " ++ url
      ++ " $\x7bATTIC_TOKEN\x7d\nnix run nixpkgs#attic-client -- use " ++ name ++ ":" ++ cache ++ "\n" }

/-- `shell_setup(shell_path)` (the source string ends in a newline and four
spaces, kept verbatim). -/
def shell_setup (shell_path : String) : Run :=
  { name := "Setup shell", shell := some "/bin/sh",
    command := "\nnix-store --add-root /tmp/python --realize " ++ shell_path ++ "\n    " }

/-- The `checkout` run step constant of `steps.py`. -/
def checkout : Run :=
  { name := "Clone and checkout repo", shell := some "/bin/sh",
    command := "\nmkdir -p ~/.ssh\necho \x27github.com ssh-rsa AAAAB3NzaC1yc2EAAAADAQABAAABgQCj7ndNxQowgcQnjshcLrqPEiiphnt+VTTvDP6mHBL9j1aNUkY4Ue1gvwnGLVlOhGeYrnZaMgRK6+PKCUXaDbC7qtbW8gIkhL7aGCsOr/C56SJMy/BCZfxd1nWzAOxSDPgVsmerOBYfNqltV9/hWCqBywINIR+5dIg6JTJ72pcEpEjcYgXkE2YEFXV1JHnsKgbLWNlhScqb2UmyRkQyytRLtL+38TGxkxCflmO+5Z8CSSNY7GidjMIZ7Q4zMjA2n1nGrlTDkzwDCsw+wqFPGQA179cnfGWOWRVruj16z6XyvxvjJwbz0wQZ75XK5tKSb7FNyeIEs4TT4jk+S4dhPeAUC5y+bDYirYgM4GC7uEnztnZyaVWQ7B381AK4Qdrwt51ZqExKbQpTUNn+EjqoTwvqNj4kqx5QUCI0ThS/YkOxJCXmPUWZbhjpCg56i+2aB6CmK2JGhn57K5mj0MNdBXA4/WnwH6XoPWJzK5Nyu2zB3nAZp+S5hpQs+p1vN1/wsjk=\n\x27 >> ~/.ssh/known_hosts\ngit clone $CIRCLE_REPOSITORY_URL --revision=$CIRCLE_SHA1 --depth 1 .\n" }

/-- `repr` of a Python string holding no quote or escape characters (the
store paths and branch names interpolated by `CallableRunStep`). -/
def pyReprStr (s : String) : String := "\x27" ++ s ++ "\x27"

/-- `repr` of a Python list of such strings. -/
def pyReprStrList (l : List String) : String :=
  "[" ++ String.intercalate ", " (l.map pyReprStr) ++ "]"

/-- `CallableRunStep.__init__`: the generated command imports the bound
function and calls it on the `repr` of its arguments; the shell defaults to
the bootstrapped interpreter. -/
def callableRunStep (name : String) (shell : Option String) (module fnName argStr : String) : Run :=
  { name := name,
    command := "\nfrom " ++ module ++ " import " ++ fnName ++ "\n" ++ fnName ++ "(" ++ argStr ++ ")\n",
    shell := some (shell.getD "/tmp/python/bin/python") }

/-- `realize_drv.bind(path)`. -/
def realize_drv_bind (path : String) : Run :=
  callableRunStep "Realize derivation" none "circler.steps" "realize_drv" (pyReprStr path)

/-- `cache_drv_outputs.bind(outs)`. -/
def cache_drv_outputs_bind (outs : List String) : Run :=
  callableRunStep "Cache built derivation outputs" none "circler.steps" "cache_drv_outputs"
    (pyReprStrList outs)

/-- `merge_ci_branch.bind(ci_branch)`. -/
def merge_ci_branch_bind (ci_branch : String) : Run :=
  callableRunStep "Merge CI branch to master" none "circler.steps" "merge_ci_branch"
    (pyReprStr ci_branch)

/-- `setup_steps(shell_path)`. -/
def setup_steps (shell_path : String) : List Step :=
  [.run nix_setup, .run (attic_setup "https://nix.leaningtech.com" "lt" "cheerp"),
   .run (shell_setup shell_path)]

/-- `generate_build_job` of `steps.py`; `env["SHELL_PATH"]` is passed in as
`shellPath`. -/
def generate_build_job (shellPath : String) (p : Pipeline) (executor : String)
    (drv : Derivation) : Pipeline × JobInstance :=
  let r := p.job (get_safe_name drv.name) (Job.steps
    { executor := executor, shell := some shellPath,
      steps := setup_steps shellPath ++
        [.run (realize_drv_bind drv.drv),
         .run (cache_drv_outputs_bind (drv.outputs.map Prod.snd))] })
  (r.1, { job := r.2 })

/-- A failed dict lookup, as a Python `KeyError`. -/
def keyErr {α : Type} : Option α → Except String α
  | some a => Except.ok a
  | none => Except.error "KeyError"

/-- The `requires`-wiring loop of `generate_build_pipeline`: for every job
key (in insertion order) look the derivation up under that key — the job
keys went through `get_safe_name`, so a name containing a dot raises
`KeyError` here — and append, per dependency, the job reference registered
under the raw dependency name. -/
def addRequires (drvs : List (String × Derivation))
    (jobs0 : List (String × JobInstance)) : Except String (List (String × JobInstance)) :=
  (jobs0.map Prod.fst).foldlM (fun jobs name => do
    let d ← keyErr (alookup name drvs)
    d.deps.foldlM (fun jobs dep => do
      let depJi ← keyErr (alookup dep jobs)
      let ji ← keyErr (alookup name jobs)
      pure (dictSet jobs name { ji with requires := ji.requires ++ [depJi.job] })) jobs) jobs0

/-! ## The matrix-power transitive reduction inside `prune_deps` -/

/-- Boolean matrix product `temp @ adj_matrix` on `n × n` numpy bool
matrices (matrices are total functions; only indices below `n` are used). -/
def bmul (n : Nat) (A B : Nat → Nat → Bool) : Nat → Nat → Bool :=
  fun i j => (List.range n).any (fun k => A i k && B k j)

/-- The `for _ in range(n - 1)` loop of `transitive_reduction`: `k`
iterations remain, the state is `(temp, reach_indirect)`. -/
def trLoop (n : Nat) (adj : Nat → Nat → Bool) :
    Nat → (Nat → Nat → Bool) × (Nat → Nat → Bool) → (Nat → Nat → Bool) × (Nat → Nat → Bool)
  | 0, s => s
  | k + 1, s =>
    let t := bmul n s.1 adj
    trLoop n adj k (t, fun i j => s.2 i j || t i j)

/-- `reach_indirect` after the loop: the union of the powers
`adj^2 … adj^n`. -/
def reach_indirect (n : Nat) (adj : Nat → Nat → Bool) : Nat → Nat → Bool :=
  (trLoop n adj (n - 1) (adj, fun _ _ => false)).2

/-- `transitive_reduction(adj_matrix) = adj_matrix & ~reach_indirect`. -/
def transitive_reduction (n : Nat) (adj : Nat → Nat → Bool) : Nat → Nat → Bool :=
  fun i j => adj i j && !reach_indirect n adj i j

/-- `prune_deps(jobs)`: build the adjacency matrix over the job-instance
keys (a `requires` reference whose key is not a job-instance key raises
`KeyError` at `nodes_idx_map[v.key]`; the check is hoisted here), reduce
it, and rebuild every instance with the reduced `requires` row. -/
def prune_deps (jobs : List (String × JobInstance)) :
    Except String (List (String × JobInstance)) :=
  let nodes := jobs.map Prod.fst
  let size := nodes.length
  if jobs.all (fun kv => kv.2.requires.all (fun r => nodes.contains r)) then
    let adj : Nat → Nat → Bool := fun i j =>
      match nodes[i]? with
      | some ni =>
        match alookup ni jobs with
        | some ji => ji.requires.any (fun r => nodes.indexOf r == j)
        | none => false
      | none => false
    let red := transitive_reduction size adj
    Except.ok ((List.range size).foldl (fun ret i =>
      match alookup (nodes.getD i "") jobs with
      | some ji =>
        let reqs := (List.range size).filterMap (fun j =>
          if red i j then (alookup (nodes.getD j "") jobs).map JobInstance.job else none)
        dictSet ret (nodes.getD i "") { job := ji.job, arguments := ji.arguments, requires := reqs }
      | none => ret) [])
  else Except.error "KeyError"

/-- `generate_build_pipeline` of `steps.py`. The environment is passed in:
`shellPath` is `env["SHELL_PATH"]` and `branchToMerge` is
`env["BRANCH_TO_MERGE"]` when that key is present. -/
def generate_build_pipeline (shellPath : String) (branchToMerge : Option String)
    (drvs : List (String × Derivation)) : Except String Pipeline := do
  let p : Pipeline := { setup := false }
  let re := p.executor "docker_large" (ExecutorS.docker "nixos/nix:latest" "large")
  let p := re.1
  let docker := re.2
  let s := drvs.foldl (fun (s : Pipeline × List (String × JobInstance)) kv =>
    let r2 := generate_build_job shellPath s.1 docker kv.2
    (r2.1, dictSet s.2 (get_safe_name kv.2.name) r2.2)) (p, [])
  let p := s.1
  let jobs ← addRequires drvs s.2
  let rb := p.job "built-all" Job.noop
  let p := rb.1
  let jobs := dictSet jobs "built-all" { job := rb.2, requires := jobs.map (fun kv => kv.2.job) }
  let jobs ← prune_deps jobs
  let s2 ← match branchToMerge with
    | some ci => do
      let rm := p.job "merge-to-master" (Job.steps
        { executor := docker, shell := some shellPath,
          steps := [.run checkout, .run (merge_ci_branch_bind ci)] })
      let builtAll ← keyErr (alookup "built-all" jobs)
      pure (rm.1, dictSet jobs "merge-to-master" { job := rm.2, requires := [builtAll.job] })
    | none => pure (p, jobs)
  let rw := s2.1.workflow "build-all" { jobs := s2.2.map Prod.snd }
  pure rw.1

/-! ## The continuation driver -/

structure HttpResponse where
  status : Nat
  text : String

structure PostCall where
  url : String
  payload : List (String × JVal)

/-- The `continuation` step: build the payload from
`env["NEXT_PIPELINE"]` and `CIRCLE_CONTINUATION_KEY`, issue exactly one
POST to the continuation endpoint, print the response body, and return
normally; the response status is never examined. The result is (requests
issued, lines printed, outcome). -/
def continuation (circleContinuationKey nextPipeline : String)
    (post : PostCall → HttpResponse) : List PostCall × List String × Except String Unit :=
  let payload := [("continuation-key", JVal.str circleContinuationKey),
                  ("configuration", JVal.str nextPipeline)]
  let req : PostCall := { url := "https://circleci.com/api/v2/pipeline/continue", payload := payload }
  let response := post req
  ([req], [response.text], Except.ok ())

/-- `Pipeline.exec(args)`: one POST of the serialized document; the
response object is discarded without being inspected. -/
def Pipeline.exec (p : Pipeline) (continuationKey : String)
    (args : Option (List (String × JVal))) (post : PostCall → HttpResponse) :
    List PostCall × Except String Unit :=
  let args := match args with
    | none => []
    | some a => if a.isEmpty then [] else a
  let payload := [("continuation-key", JVal.str continuationKey),
                  ("configuration", JVal.str (dump_json_str p)),
                  ("parameters", JVal.obj args)]
  let req : PostCall := { url := "https://circleci.com/api/v2/pipeline/continue", payload := payload }
  let _response := post req
  ([req], Except.ok ())

/-! ## Derived relations and auxiliary definitions used by the statements -/

/-- Insert a key into a sorted key list (companion of `insertPairByKey`). -/
def insertKey (k : String) : List String → List String
  | [] => [k]
  | h :: t => if k < h then k :: h :: t else h :: insertKey k t

/-- Sort a key list (companion of `sortPairsByKey`). -/
def sortKeys : List String → List String
  | [] => []
  | h :: t => insertKey h (sortKeys t)

/-- Edge relation of a derivation graph: `edge g a b` holds when `b` occurs
in the dependency list of the node stored under key `a`. -/
def edge (g : List (String × Derivation)) (a b : String) : Prop := b ∈ depsOf g a

instance (g : List (String × Derivation)) (a b : String) : Decidable (edge g a b) :=
  inferInstanceAs (Decidable (_ ∈ _))

/-- Edge relation of a boolean adjacency matrix. -/
def madj (adj : Nat → Nat → Bool) (i j : Nat) : Prop := adj i j = true

instance (adj : Nat → Nat → Bool) (i j : Nat) : Decidable (madj adj i j) :=
  inferInstanceAs (Decidable (_ = _))

/-- A directed graph is acyclic: no node reaches itself through at least
one edge (this is what "the graph is a DAG, no self-loops" means for the
edge relations above). -/
def Acyclic {V : Type} (e : V → V → Prop) : Prop := ∀ v, ¬ Relation.TransGen e v v

/-- The nodes lying between `u` and `v` with respect to reachability: the
well-founded measure of the reachability-preservation argument. -/
def interval {V : Type} (e : V → V → Prop) (u v : V) : Set V :=
  {w | Relation.ReflTransGen e u w ∧ Relation.ReflTransGen e w v}

/-- `temp @ adj^k`: the value of the loop variable `temp` of
`transitive_reduction` after `k` further multiplications. -/
def mulPow (n : Nat) (adj temp : Nat → Nat → Bool) : Nat → (Nat → Nat → Bool)
  | 0 => temp
  | k + 1 => bmul n (mulPow n adj temp k) adj

/-! ## Concrete inputs used by the scenario theorems -/

/-- The unit list of the three-unit scenario: `A` with no dependencies, `B`
depending on `A`, `C` depending on `A` and `B` (requisites are transitively
closed: `C` picks up `A` through `B`). -/
def drvsABC : List (String × Derivation) :=
  [("A", { name := "A", drv := "a", outputs := [("out", "/nix/store/a")], deps := [] }),
   ("B", { name := "B", drv := "b", outputs := [("out", "/nix/store/b")], deps := ["A"] }),
   ("C", { name := "C", drv := "c", outputs := [("out", "/nix/store/c")], deps := ["A", "B"] })]

/-- A pipeline whose `jobs` registry was filled in the insertion order
`b`, then `a` (not alphabetical). -/
def pipelineBA : Pipeline :=
  ((({} : Pipeline).job "b" Job.noop).1.job "a" Job.noop).1

/-- A pipeline holding one job whose executor reference key `ghost` was
never declared in the `executors` registry. -/
def ghostPipeline : Pipeline :=
  (({} : Pipeline).job "j" (Job.steps { executor := "ghost", steps := [] })).1

/-- A non-2xx continuation response. -/
def resp500 : HttpResponse := { status := 500, text := "error: invalid continuation key" }

/-- A three-node derivation graph with transitively closed dependencies
(`c` lists both `b` and `a`), used to instantiate the reachability
theorem. -/
def chainGraph : List (String × Derivation) :=
  [("a", { name := "a", drv := "da", outputs := [], deps := [] }),
   ("b", { name := "b", drv := "db", outputs := [], deps := ["a"] }),
   ("c", { name := "c", drv := "dc", outputs := [], deps := ["a", "b"] })]

/-- Rank function witnessing that `chainGraph` is a DAG. -/
def chainRank (s : String) : Nat :=
  if s = "b" then 1 else if s = "c" then 2 else 0

/-- The `3 × 3` adjacency matrix of the same shape: `1 → 0`, `2 → 0`,
`2 → 1`. -/
def chainAdj (i j : Nat) : Bool :=
  (i == 1 && j == 0) || (i == 2 && j == 0) || (i == 2 && j == 1)

/-! ## Helper lemmas -/

theorem alookup_dictSet {α : Type} (l : List (String × α)) (k : String) (v : α) :
    alookup k (dictSet l k v) = some v := by
  induction l with
  | nil => simp [dictSet, alookup]
  | cons h t ih =>
    by_cases hk : h.1 = k
    · simp [dictSet, hk, alookup]
    · simp [dictSet, hk, alookup, ih]

theorem keys_dictSet {α : Type} (l : List (String × α)) (k : String) (v : α)
    (h : alookup k l ≠ none) : (dictSet l k v).map Prod.fst = l.map Prod.fst := by
  induction l with
  | nil => simp [alookup] at h
  | cons hd t ih =>
    by_cases hk : hd.1 = k
    · simp [dictSet, hk]
    · simp only [alookup, hk, if_false] at h
      simp [dictSet, hk, ih h]

theorem alookup_mem {α : Type} {l : List (String × α)} {k : String} {v : α}
    (h : alookup k l = some v) : (k, v) ∈ l := by
  induction l with
  | nil => simp [alookup] at h
  | cons hd t ih =>
    by_cases hk : hd.1 = k
    · simp only [alookup, hk, if_true, Option.some.injEq] at h
      subst h
      have : (k, hd.2) = hd := by rw [← hk]
      rw [this]
      exact List.mem_cons_self _ _
    · simp only [alookup, hk, if_false] at h
      exact List.mem_cons_of_mem _ (ih h)

theorem alookup_map_snd {α β : Type} (f : α → β) (l : List (String × α)) (k : String) :
    alookup k (l.map (fun kv => (kv.1, f kv.2))) = (alookup k l).map f := by
  induction l with
  | nil => simp [alookup]
  | cons hd t ih =>
    by_cases hk : hd.1 = k
    · simp [alookup, hk]
    · simp [alookup, hk, ih]

theorem attach_map_apply {α β : Type} (l : List α) (g : α → β) :
    l.attach.map (fun x => g x.1) = l.map g := by
  rw [show (fun (x : {a // a ∈ l}) => g x.1) = g ∘ Subtype.val from rfl,
    ← List.map_map, List.attach_map_subtype_val]

/-! ## C2: the three-unit compilation scenario -/

/-- C2: compiling the unit list A (no deps), B (requisites a), C
(requisites a and b, transitively closed) yields a `build-all` workflow
whose job instances are exactly A with no requirement, B requiring only A,
C requiring only B (no C-to-A edge), and the synthetic terminal
`built-all` no-op instance — declared requiring every other instance and
then reduced over the job-instance requires graph — requiring only C; the
jobs registry holds the three build jobs plus `built-all`. -/
theorem pipeline_scenario_abc :
    (generate_build_pipeline "/sh" none drvsABC).map (fun p =>
        (alookup "build-all" p.workflows).map (fun (w : Workflow) =>
          w.jobs.map (fun (ji : JobInstance) => (ji.job, ji.requires))))
      = Except.ok (some [("A", []), ("B", ["A"]), ("C", ["B"]), ("built-all", ["C"])])
    ∧ (generate_build_pipeline "/sh" none drvsABC).map (fun p => p.jobs.map Prod.fst)
      = Except.ok ["A", "B", "C", "built-all"] :=
  ⟨rfl, rfl⟩

/-! ## C4: duplicate declaration in a registry -/

/-- C4 counterexample: declaring a second job under the key `k` does not
abort — `DictRef.__init__` performs a plain dict assignment — and the
entity stored under `k` afterwards is the second one, not the first: the
first has been silently replaced. -/
theorem duplicate_declaration_cex :
    alookup "k" ((((({} : Pipeline).job "k" Job.noop).1).job "k"
        (Job.steps { executor := "e", steps := [] })).1).jobs
      = some (Job.steps { executor := "e", steps := [] })
    ∧ Job.steps { executor := "e", steps := [] } ≠ Job.noop :=
  ⟨rfl, by simp⟩

/-- C4 amended: declaring an entity under a key already present in a
registry is not detected: the new entity silently replaces the stored one
(dict assignment semantics), the key keeping its position in the
insertion order, and compilation continues. -/
theorem duplicate_declaration_replaces (p : Pipeline) (name : String) (j1 j2 : Job) :
    alookup name (((p.job name j1).1.job name j2).1).jobs = some j2
    ∧ (((p.job name j1).1.job name j2).1).jobs.map Prod.fst
        = ((p.job name j1).1).jobs.map Prod.fst := by
  constructor
  · exact alookup_dictSet _ _ _
  · refine keys_dictSet _ _ _ ?_
    show alookup name (dictSet p.jobs name j1) ≠ none
    rw [alookup_dictSet]
    simp

/-! ## C6: the continuation submission -/

/-- C6 counterexample: when the POST returns status 500, the continuation
step does not surface the failure — it returns normally — and it does
produce further output: it prints the response body. -/
theorem continuation_cex :
    (continuation "key" "cfg" (fun _ => resp500)).2.2 = Except.ok ()
    ∧ (continuation "key" "cfg" (fun _ => resp500)).2.1
        = ["error: invalid continuation key"] :=
  ⟨rfl, rfl⟩

/-- C6 amended: exactly one POST is issued per compilation pass and no
second submission attempt is ever made, but a non-2xx response is not
surfaced: the continuation step ignores the status, prints the response
body, and completes successfully, and `Pipeline.exec` discards the
response entirely. -/
theorem continuation_single_post (key cfg : String) (post : PostCall → HttpResponse)
    (p : Pipeline) (args : Option (List (String × JVal))) :
    (∃ req, (continuation key cfg post).1 = [req]
      ∧ (continuation key cfg post).2.1 = [(post req).text])
    ∧ (continuation key cfg post).2.2 = Except.ok ()
    ∧ (∃ req, (Pipeline.exec p key args post).1 = [req])
    ∧ (Pipeline.exec p key args post).2 = Except.ok () :=
  ⟨⟨_, rfl, rfl⟩, rfl, ⟨_, rfl⟩, rfl⟩

/-! ## C8: cache filtering -/

/-- C8: a unit survives `filter_cached` exactly when it was in the input
and at least one of its declared output paths is absent from the
cache-presence result; consequently a unit is removed only when every one
of its declared outputs is reported present. -/
theorem filter_cached_spec (present : String → Bool) (drvs : List (String × Derivation))
    (kv : String × Derivation) :
    kv ∈ filter_cached present drvs
      ↔ kv ∈ drvs ∧ ∃ o ∈ kv.2.outputs, present o.2 = false := by
  simp [filter_cached, List.mem_filter]

/-! ## C9: serializing a dangling reference -/

/-- C9 counterexample: `ghostPipeline` holds a job whose executor
reference key `ghost` is absent from the executors registry, yet
serializing it raises no error and emits the key string: the serialized
job body carries `executor: ghost` and the document is produced in
full. -/
theorem dangling_ref_cex :
    alookup "ghost" ghostPipeline.executors = none
    ∧ serializeJob (Job.steps { executor := "ghost", steps := [] })
        = .obj [("executor", .str "ghost"), ("steps", .list [])]
    ∧ objKeysAt (serializePipeline ghostPipeline) "jobs" = some ["j"] :=
  ⟨rfl, rfl, rfl⟩

/-- C9 amended: the registered `DictRef` serializer emits the stored key
unconditionally and never consults the owning registry, so a reference
whose key is absent serializes to that (dangling) key string rather than
failing or emitting a null. -/
theorem serialize_ref_ignores_registry (key : String) (sj : StepsJob) :
    serializeRef key = JVal.str key
    ∧ ∃ rest, serializeJob (Job.steps sj)
        = .obj (("executor", JVal.str sj.executor) :: rest) :=
  ⟨rfl, _, rfl⟩

/-! ## C10: sparse serialization -/

/-- C10: `serialize_base` omits exactly the fields whose value is `None`
(key for key, in field order); every serialized job instance carries a
`requires` key, the empty list included; and a serialized pipeline always
carries all six dataclass keys — `setup` and the four registry mappings
included, empty or not. -/
theorem sparse_serialization :
    (∀ fields : List (String × Option JVal),
        (serialize_base fields).map Prod.fst
          = (fields.filter (fun kv => kv.2.isSome)).map Prod.fst)
    ∧ (∀ ji : JobInstance, ∃ d, serializeJobInstance ji = .obj [(ji.job, .obj d)]
        ∧ alookup "requires" d = some (.list (ji.requires.map JVal.str)))
    ∧ (∀ p : Pipeline, serializePipeline p = .obj
        [("version", .str p.version),
         ("jobs", .obj (p.jobs.map (fun kv => (kv.1, serializeJob kv.2)))),
         ("workflows", .obj (p.workflows.map (fun kv => (kv.1, serializeWorkflow kv.2)))),
         ("executors", .obj (p.executors.map (fun kv => (kv.1, serializeExecutor kv.2)))),
         ("parameters", .obj (p.parameters.map (fun kv => (kv.1, serializeParameter kv.2)))),
         ("setup", .bool p.setup)]) := by
  refine ⟨fun fields => ?_, fun ji => ⟨_, rfl, alookup_dictSet _ _ _⟩, fun p => rfl⟩
  induction fields with
  | nil => rfl
  | cons hd t ih =>
    cases h : hd.2 with
    | none => simp [serialize_base, List.filterMap_cons, h, List.filter_cons,
        serialize_base] at ih ⊢; exact ih
    | some v => simp [serialize_base, List.filterMap_cons, h, List.filter_cons] at ih ⊢; exact ih

/-! ## C5: the string presenter -/

theorem head_dropWhile_false {α : Type} (p : α → Bool) (l : List α) :
    ∀ c ∈ (l.dropWhile p).head?, p c = false := by
  induction l with
  | nil => simp
  | cons h t ih =>
    by_cases hp : p h
    · simpa [List.dropWhile_cons, hp] using ih
    · simp [List.dropWhile_cons, hp]

/-- C5 counterexample: the multi-line command `"\n foo\nbar"` is emitted
with block-literal style but its value is not preserved exactly — the
presenter lstrips it, deleting the leading newline and space. -/
theorem string_presenter_cex :
    (string_presenter "\n foo\nbar").style = some '|'
    ∧ (string_presenter "\n foo\nbar").value ≠ "\n foo\nbar" := by
  refine ⟨rfl, ?_⟩
  decide

/-- C5 amended: a single-line string is emitted in plain scalar style with
its value unchanged; a multi-line string is emitted in block-literal style
after `lstrip()`: its maximal leading whitespace run (leading newlines and
indentation included) is removed and everything from the first
non-whitespace character on — embedded newlines included — is preserved
exactly. -/
theorem string_presenter_spec (data : String) :
    (data.data.contains '\n' = false →
      string_presenter data = { tag := "tag:yaml.org,2002:str", value := data, style := none })
    ∧ (data.data.contains '\n' = true →
      (string_presenter data).style = some '|'
      ∧ ∃ ws, data = ws ++ (string_presenter data).value
          ∧ (∀ c ∈ ws.data, isPySpace c = true)
          ∧ ∀ c ∈ ((string_presenter data).value.data.head?), isPySpace c = false) := by
  constructor
  · intro h
    have h2 : '\n' ∉ data.data := by simpa using h
    simp [string_presenter, h2]
  · intro h
    have h2 : '\n' ∈ data.data := by simpa using h
    have hv : (string_presenter data).value = pyLstrip data := by simp [string_presenter, h2]
    refine ⟨by simp [string_presenter, h2], ⟨⟨data.data.takeWhile isPySpace⟩, ?_, ?_, ?_⟩⟩
    · rw [hv]
      show data = String.mk (data.data.takeWhile isPySpace ++ data.data.dropWhile isPySpace)
      rw [List.takeWhile_append_dropWhile]
    · intro c hc
      exact List.mem_takeWhile_imp hc
    · rw [hv]
      exact head_dropWhile_false isPySpace data.data

/-- C5 witness: the amended statement applied at the single-line string
`"ab"` and the multi-line string `"\n x"`. -/
theorem string_presenter_spec_witness :
    string_presenter "ab" = { tag := "tag:yaml.org,2002:str", value := "ab", style := none }
    ∧ ((string_presenter "\n x").style = some '|'
       ∧ ∃ ws, "\n x" = ws ++ (string_presenter "\n x").value
           ∧ (∀ c ∈ ws.data, isPySpace c = true)
           ∧ ∀ c ∈ ((string_presenter "\n x").value.data.head?), isPySpace c = false) :=
  ⟨(string_presenter_spec "ab").1 rfl, (string_presenter_spec "\n x").2 rfl⟩

/-! ## C3: key order of the serialized document -/

theorem map_fst_insertPairByKey (kv : String × JVal) (l : List (String × JVal)) :
    (insertPairByKey kv l).map Prod.fst = insertKey kv.1 (l.map Prod.fst) := by
  induction l with
  | nil => rfl
  | cons h t ih =>
    by_cases hlt : kv.1 < h.1
    · simp [insertPairByKey, insertKey, hlt]
    · simp [insertPairByKey, insertKey, hlt, ih]

theorem map_fst_sortPairsByKey (l : List (String × JVal)) :
    (sortPairsByKey l).map Prod.fst = sortKeys (l.map Prod.fst) := by
  induction l with
  | nil => rfl
  | cons h t ih =>
    simp [sortPairsByKey, sortKeys, map_fst_insertPairByKey, ih]

theorem yamlSortKeys_obj (l : List (String × JVal)) :
    yamlSortKeys (.obj l) = .obj (sortPairsByKey (l.map (fun kv => (kv.1, yamlSortKeys kv.2)))) := by
  rw [yamlSortKeys]
  rw [attach_map_apply l (fun kv => (kv.1, yamlSortKeys kv.2))]

theorem dump_json_tree_jobs_keys (p : Pipeline) :
    objKeysAt (dump_json_tree p) "jobs" = some (p.jobs.map Prod.fst) := by
  show some ((p.jobs.map (fun kv => (kv.1, serializeJob kv.2))).map Prod.fst) = _
  rw [List.map_map]
  rfl

theorem dump_json_tree_workflows_keys (p : Pipeline) :
    objKeysAt (dump_json_tree p) "workflows" = some (p.workflows.map Prod.fst) := by
  show some ((p.workflows.map (fun kv => (kv.1, serializeWorkflow kv.2))).map Prod.fst) = _
  rw [List.map_map]
  rfl

theorem sortPairs_pipeline_fields (v1 v2 v3 v4 v5 v6 : JVal) :
    sortPairsByKey [("version", v1), ("jobs", v2), ("workflows", v3),
      ("executors", v4), ("parameters", v5), ("setup", v6)]
      = [("executors", v4), ("jobs", v2), ("parameters", v5), ("setup", v6),
         ("version", v1), ("workflows", v3)] := by
  with_unfolding_all rfl

theorem objKeysAt_sorted_jobs (a c d e f : JVal) (m : List (String × JVal)) :
    objKeysAt (.obj [("executors", a), ("jobs", .obj m), ("parameters", c),
      ("setup", d), ("version", e), ("workflows", f)]) "jobs" = some (m.map Prod.fst) := rfl

theorem objKeysAt_sorted_workflows (a b c d e : JVal) (m : List (String × JVal)) :
    objKeysAt (.obj [("executors", a), ("jobs", b), ("parameters", c),
      ("setup", d), ("version", e), ("workflows", .obj m)]) "workflows"
      = some (m.map Prod.fst) := rfl

theorem dump_yaml_tree_jobs_keys (p : Pipeline) :
    objKeysAt (dump_yaml_tree p) "jobs" = some (sortKeys (p.jobs.map Prod.fst)) := by
  have h1 : dump_yaml_tree p = yamlSortKeys (JVal.obj
      [("version", .str p.version),
       ("jobs", .obj (p.jobs.map (fun kv => (kv.1, serializeJob kv.2)))),
       ("workflows", .obj (p.workflows.map (fun kv => (kv.1, serializeWorkflow kv.2)))),
       ("executors", .obj (p.executors.map (fun kv => (kv.1, serializeExecutor kv.2)))),
       ("parameters", .obj (p.parameters.map (fun kv => (kv.1, serializeParameter kv.2)))),
       ("setup", .bool p.setup)]) := rfl
  rw [h1, yamlSortKeys_obj]
  simp only [List.map_cons, List.map_nil, yamlSortKeys_obj]
  rw [sortPairs_pipeline_fields]
  refine (objKeysAt_sorted_jobs _ _ _ _ _ _).trans ?_
  rw [map_fst_sortPairsByKey, List.map_map, List.map_map]
  rfl

theorem dump_yaml_tree_workflows_keys (p : Pipeline) :
    objKeysAt (dump_yaml_tree p) "workflows" = some (sortKeys (p.workflows.map Prod.fst)) := by
  have h1 : dump_yaml_tree p = yamlSortKeys (JVal.obj
      [("version", .str p.version),
       ("jobs", .obj (p.jobs.map (fun kv => (kv.1, serializeJob kv.2)))),
       ("workflows", .obj (p.workflows.map (fun kv => (kv.1, serializeWorkflow kv.2)))),
       ("executors", .obj (p.executors.map (fun kv => (kv.1, serializeExecutor kv.2)))),
       ("parameters", .obj (p.parameters.map (fun kv => (kv.1, serializeParameter kv.2)))),
       ("setup", .bool p.setup)]) := rfl
  rw [h1, yamlSortKeys_obj]
  simp only [List.map_cons, List.map_nil, yamlSortKeys_obj]
  rw [sortPairs_pipeline_fields]
  refine (objKeysAt_sorted_workflows _ _ _ _ _ _).trans ?_
  rw [map_fst_sortPairsByKey, List.map_map, List.map_map]
  rfl

/-- C3 counterexample: in `pipelineBA` the jobs were declared in the order
`b`, `a`; `dump_yaml` emits the `jobs` mapping with its keys sorted
(`a`, `b`), which does not match the insertion order of the registry. -/
theorem dump_key_order_cex :
    objKeysAt (dump_yaml_tree pipelineBA) "jobs" ≠ some (pipelineBA.jobs.map Prod.fst) := by
  rw [dump_yaml_tree_jobs_keys]
  have h1 : sortKeys (pipelineBA.jobs.map Prod.fst) = ["a", "b"] := by
    with_unfolding_all rfl
  have h2 : pipelineBA.jobs.map Prod.fst = ["b", "a"] := rfl
  rw [h1, h2]
  simp

/-- C3 amended: the `jobs` and `workflows` entries of the document emitted
by `dump_json` carry their keys exactly in the registries' insertion
order; the document emitted by `dump_yaml` carries them sorted
alphabetically instead (its default mapping-key sort), which coincides
with insertion order only when that order is already sorted. -/
theorem dump_key_order (p : Pipeline) :
    objKeysAt (dump_json_tree p) "jobs" = some (p.jobs.map Prod.fst)
    ∧ objKeysAt (dump_json_tree p) "workflows" = some (p.workflows.map Prod.fst)
    ∧ objKeysAt (dump_yaml_tree p) "jobs" = some (sortKeys (p.jobs.map Prod.fst))
    ∧ objKeysAt (dump_yaml_tree p) "workflows" = some (sortKeys (p.workflows.map Prod.fst)) :=
  ⟨dump_json_tree_jobs_keys p, dump_json_tree_workflows_keys p,
   dump_yaml_tree_jobs_keys p, dump_yaml_tree_workflows_keys p⟩

/-! ## C7: idempotence of `prune_graph` -/

theorem alookup_map_update (f : String → List String) (l : List (String × Derivation))
    (k : String) :
    alookup k (l.map (fun kv => (kv.1, { kv.2 with deps := pruneDepsList f kv.2.deps })))
      = (alookup k l).map (fun v => { v with deps := pruneDepsList f v.deps }) := by
  induction l with
  | nil => rfl
  | cons hd t ih =>
    by_cases hk : hd.1 = k
    · simp [alookup, hk]
    · simp [alookup, hk, ih]

theorem depsOf_pruneGraph (g : List (String × Derivation)) (k : String) :
    depsOf (pruneGraph g) k = pruneDepsList (depsOf g) (depsOf g k) := by
  unfold depsOf
  rw [show pruneGraph g = g.map (fun kv =>
      (kv.1, { kv.2 with deps := pruneDepsList (depsOf g) kv.2.deps })) from rfl]
  rw [alookup_map_update (depsOf g) g k]
  cases alookup k g with
  | none => rfl
  | some d => rfl

theorem pruneDepsList_stable (g : List (String × Derivation)) (ds : List String) :
    pruneDepsList (depsOf (pruneGraph g)) (pruneDepsList (depsOf g) ds)
      = pruneDepsList (depsOf g) ds := by
  apply List.filter_eq_self.mpr
  intro dx hdx
  have hkeep : ∀ dy ∈ ds, (depsOf g dy).contains dx = false := by
    have h2 : (!ds.any fun dy => (depsOf g dy).contains dx) = true :=
      (List.mem_filter.mp hdx).2
    simpa [Bool.not_eq_true', List.any_eq_false] using h2
  simp only [Bool.not_eq_true', List.any_eq_false]
  intro dy hdy
  have hdyds : dy ∈ ds := List.mem_of_mem_filter hdy
  rw [depsOf_pruneGraph]
  have hnot : dx ∉ depsOf g dy := by simpa using hkeep dy hdyds
  have hno2 : dx ∉ pruneDepsList (depsOf g) (depsOf g dy) :=
    fun hm => hnot (List.mem_of_mem_filter hm)
  simpa using hno2

/-- C7: `prune_graph` is idempotent on every derivation graph (DAG or
not): applying it to its own output returns the same keyed graph — same
nodes, in order, and identical dependency lists. -/
theorem prune_graph_idempotent (g : List (String × Derivation)) :
    pruneGraph (pruneGraph g) = pruneGraph g := by
  conv_rhs => rw [← List.map_id (pruneGraph g)]
  apply List.map_congr_left
  intro kv hkv
  have hkv2 : kv ∈ g.map (fun kv =>
      (kv.1, { kv.2 with deps := pruneDepsList (depsOf g) kv.2.deps })) := hkv
  rw [List.mem_map] at hkv2
  obtain ⟨⟨k, v⟩, _, rfl⟩ := hkv2
  exact congrArg (fun ds => (k, { v with deps := ds })) (pruneDepsList_stable g v.deps)

/-! ## C1: the transitive reduction preserves reachability

The argument is shared by `prune_graph` and by the matrix-power
`transitive_reduction`: whenever an edge `u → v` is removed there is a
strictly longer path from `u` to `v` in the original graph, and on a
finite DAG each edge of that path sits between a strictly smaller
reachability interval, so a strong induction on the interval size shows
the removed edge is still simulated by the reduced graph. -/

theorem acyclic_of_rank {V : Type} (e : V → V → Prop) (rank : V → Nat)
    (h : ∀ u v, e u v → rank v < rank u) : Acyclic e := by
  intro v hv
  have key : ∀ a b, Relation.TransGen e a b → rank b < rank a := by
    intro a b hab
    induction hab with
    | single h1 => exact h _ _ h1
    | tail _ h1 ih => exact Nat.lt_trans (h _ _ h1) ih
  exact absurd (key v v hv) (Nat.lt_irrefl _)

theorem acyclic_of_le {V : Type} {e ep : V → V → Prop}
    (hsub : ∀ u v, ep u v → e u v) (hacyc : Acyclic e) : Acyclic ep :=
  fun v hv => hacyc v (hv.mono hsub)

theorem interval_ssubset_left {V : Type} {e : V → V → Prop} (hacyc : Acyclic e)
    {u w v : V} (huw : Relation.TransGen e u w) (hwv : Relation.TransGen e w v) :
    interval e u w ⊂ interval e u v := by
  constructor
  · intro x hx
    exact ⟨hx.1, hx.2.trans hwv.to_reflTransGen⟩
  · intro hsub
    have hv : v ∈ interval e u v := ⟨(huw.trans hwv).to_reflTransGen, Relation.ReflTransGen.refl⟩
    have hv2 := hsub hv
    rcases Relation.reflTransGen_iff_eq_or_transGen.mp hv2.2 with heq | htrans
    · exact hacyc v (heq ▸ hwv)
    · exact hacyc v (htrans.trans hwv)

theorem interval_ssubset_right {V : Type} {e : V → V → Prop} (hacyc : Acyclic e)
    {u w v : V} (huw : Relation.TransGen e u w) (hwv : Relation.TransGen e w v) :
    interval e w v ⊂ interval e u v := by
  constructor
  · intro x hx
    exact ⟨huw.to_reflTransGen.trans hx.1, hx.2⟩
  · intro hsub
    have hu : u ∈ interval e u v := ⟨Relation.ReflTransGen.refl, (huw.trans hwv).to_reflTransGen⟩
    have hu2 := hsub hu
    rcases Relation.reflTransGen_iff_eq_or_transGen.mp hu2.1 with heq | htrans
    · exact hacyc w (heq ▸ huw)
    · exact hacyc w (htrans.trans huw)

theorem reach_iff_of_prune {V : Type} (e ep : V → V → Prop)
    (hsub : ∀ u v, ep u v → e u v)
    (hacyc : Acyclic e)
    (hfin : ∀ u v, (interval e u v).Finite)
    (hwit : ∀ u v, e u v → ¬ ep u v → ∃ w, Relation.TransGen e u w ∧ e w v)
    (a b : V) : Relation.ReflTransGen e a b ↔ Relation.ReflTransGen ep a b := by
  constructor
  · have main : ∀ N u v, (interval e u v).ncard ≤ N → Relation.TransGen e u v →
        Relation.ReflTransGen ep u v := by
      intro N
      induction N with
      | zero =>
        intro u v hm ht
        exfalso
        have hu : u ∈ interval e u v := ⟨Relation.ReflTransGen.refl, ht.to_reflTransGen⟩
        have hpos : 0 < (interval e u v).ncard := (Set.ncard_pos (hfin u v)).mpr ⟨u, hu⟩
        omega
      | succ N ih =>
        intro u v hm ht
        obtain ⟨x, hux, hxv⟩ := Relation.TransGen.head'_iff.mp ht
        rcases Relation.reflTransGen_iff_eq_or_transGen.mp hxv with heq | hxv2
        · subst heq
          by_cases hp : ep u v
          · exact Relation.ReflTransGen.single hp
          · obtain ⟨w, huw, hwv⟩ := hwit u v hux hp
            have hwv2 : Relation.TransGen e w v := Relation.TransGen.single hwv
            have m1 : (interval e u w).ncard < (interval e u v).ncard :=
              Set.ncard_lt_ncard (interval_ssubset_left hacyc huw hwv2) (hfin u v)
            have m2 : (interval e w v).ncard < (interval e u v).ncard :=
              Set.ncard_lt_ncard (interval_ssubset_right hacyc huw hwv2) (hfin u v)
            exact (ih u w (by omega) huw).trans (ih w v (by omega) hwv2)
        · have hux2 : Relation.TransGen e u x := Relation.TransGen.single hux
          have m1 : (interval e u x).ncard < (interval e u v).ncard :=
            Set.ncard_lt_ncard (interval_ssubset_left hacyc hux2 hxv2) (hfin u v)
          have m2 : (interval e x v).ncard < (interval e u v).ncard :=
            Set.ncard_lt_ncard (interval_ssubset_right hacyc hux2 hxv2) (hfin u v)
          exact (ih u x (by omega) hux2).trans (ih x v (by omega) hxv2)
    intro h
    rcases Relation.reflTransGen_iff_eq_or_transGen.mp h with heq | ht
    · exact heq ▸ Relation.ReflTransGen.refl
    · exact main _ a b (le_refl _) ht
  · intro h
    exact h.mono hsub

theorem interval_finite_of_targets {V : Type} {e : V → V → Prop} {S : Set V}
    (hS : S.Finite) (htgt : ∀ x w, e x w → w ∈ S) (u v : V) :
    (interval e u v).Finite := by
  apply (hS.insert u).subset
  intro w hw
  rcases Relation.ReflTransGen.cases_tail hw.1 with heq | ⟨c, _, hcw⟩
  · exact heq ▸ Set.mem_insert _ _
  · exact Set.mem_insert_of_mem _ (htgt c w hcw)

theorem edge_mem_deps {g : List (String × Derivation)} {x w : String}
    (h : edge g x w) : ∃ p ∈ g, w ∈ p.2.deps := by
  unfold edge depsOf at h
  cases hx : alookup x g with
  | none => rw [hx] at h; simp at h
  | some d =>
    rw [hx] at h
    exact ⟨(x, d), alookup_mem hx, h⟩

theorem interval_finite_edge (g : List (String × Derivation)) (u v : String) :
    (interval (edge g) u v).Finite := by
  refine interval_finite_of_targets (S := {w | w ∈ g.flatMap (fun p => p.2.deps)})
    (Set.Finite.subset (List.finite_toSet _) (fun w hw => hw)) ?_ u v
  intro x w h
  obtain ⟨p, hp, hw⟩ := edge_mem_deps h
  exact List.mem_flatMap.mpr ⟨p, hp, hw⟩

theorem edge_pruneGraph_sub (g : List (String × Derivation)) (u v : String)
    (h : edge (pruneGraph g) u v) : edge g u v := by
  unfold edge at h ⊢
  rw [depsOf_pruneGraph] at h
  exact List.mem_of_mem_filter h

theorem prune_graph_wit (g : List (String × Derivation)) (u v : String)
    (hu : edge g u v) (hnp : ¬ edge (pruneGraph g) u v) :
    ∃ w, Relation.TransGen (edge g) u w ∧ edge g w v := by
  rw [show edge (pruneGraph g) u v = (v ∈ depsOf (pruneGraph g) u) from rfl,
    depsOf_pruneGraph] at hnp
  have hany : ((depsOf g u).any fun dy => (depsOf g dy).contains v) = true := by
    by_contra hc
    refine hnp (List.mem_filter.mpr ⟨hu, ?_⟩)
    simp only [Bool.not_eq_true] at hc
    rw [hc]
    rfl
  obtain ⟨w, hw1, hw2⟩ := List.any_eq_true.mp hany
  refine ⟨w, Relation.TransGen.single hw1, ?_⟩
  show v ∈ depsOf g w
  simpa using hw2

theorem mulPow_shift (n : Nat) (adj temp : Nat → Nat → Bool) (k : Nat) :
    mulPow n adj (bmul n temp adj) k = mulPow n adj temp (k + 1) := by
  induction k with
  | zero => rfl
  | succ k ih => rw [mulPow, ih]; rfl

theorem bmul_eq_true (n : Nat) (A B : Nat → Nat → Bool) (i j : Nat) :
    bmul n A B i j = true ↔ ∃ k, k < n ∧ A i k = true ∧ B k j = true := by
  unfold bmul
  rw [List.any_eq_true]
  constructor
  · rintro ⟨k, hk, hab⟩
    have hab2 : A i k = true ∧ B k j = true := by simpa using hab
    exact ⟨k, List.mem_range.mp hk, hab2.1, hab2.2⟩
  · rintro ⟨k, hk, h1, h2⟩
    exact ⟨k, List.mem_range.mpr hk, by simp [h1, h2]⟩

theorem trLoop_snd_spec (n : Nat) (adj : Nat → Nat → Bool) :
    ∀ (k : Nat) (temp acc : Nat → Nat → Bool) (i j : Nat),
    (trLoop n adj k (temp, acc)).2 i j = true ↔
      acc i j = true ∨ ∃ m, 1 ≤ m ∧ m ≤ k ∧ mulPow n adj temp m i j = true := by
  intro k
  induction k with
  | zero =>
    intro temp acc i j
    constructor
    · intro h
      exact Or.inl h
    · rintro (h | ⟨m, h1, h2, _⟩)
      · exact h
      · omega
  | succ k ih =>
    intro temp acc i j
    rw [trLoop, ih]
    constructor
    · rintro (hacc | ⟨m, h1, h2, hm⟩)
      · have hacc2 : acc i j = true ∨ bmul n temp adj i j = true := by simpa using hacc
        rcases hacc2 with h | h
        · exact Or.inl h
        · exact Or.inr ⟨1, Nat.le_refl 1, by omega, h⟩
      · rw [mulPow_shift] at hm
        exact Or.inr ⟨m + 1, by omega, by omega, hm⟩
    · rintro (hacc | ⟨m, h1, h2, hm⟩)
      · exact Or.inl (by simp [hacc])
      · cases m with
        | zero => omega
        | succ m2 =>
          cases m2 with
          | zero =>
            refine Or.inl ?_
            have hb : bmul n temp adj i j = true := hm
            simp [hb]
          | succ m3 =>
            refine Or.inr ⟨m3 + 1, by omega, by omega, ?_⟩
            rw [mulPow_shift]
            exact hm

theorem reach_indirect_spec (n : Nat) (adj : Nat → Nat → Bool) (i j : Nat) :
    reach_indirect n adj i j = true ↔
      ∃ m, 1 ≤ m ∧ m ≤ n - 1 ∧ mulPow n adj adj m i j = true := by
  unfold reach_indirect
  rw [trLoop_snd_spec]
  simp

theorem mulPow_transGen {n : Nat} {adj : Nat → Nat → Bool} :
    ∀ (k i j : Nat), mulPow n adj adj k i j = true → Relation.TransGen (madj adj) i j := by
  intro k
  induction k with
  | zero =>
    intro i j h
    exact Relation.TransGen.single h
  | succ k ih =>
    intro i j h
    obtain ⟨w, _, h1, h2⟩ := (bmul_eq_true n _ adj i j).mp h
    exact Relation.TransGen.tail (ih i w h1) h2

theorem matrix_reduction_sub (n : Nat) (adj : Nat → Nat → Bool) (u v : Nat)
    (h : transitive_reduction n adj u v = true) : madj adj u v := by
  have h2 : adj u v = true ∧ reach_indirect n adj u v = false := by
    simpa [transitive_reduction] using h
  exact h2.1

theorem matrix_wit (n : Nat) (adj : Nat → Nat → Bool) (u v : Nat)
    (he : adj u v = true) (hnp : ¬ transitive_reduction n adj u v = true) :
    ∃ w, Relation.TransGen (madj adj) u w ∧ madj adj w v := by
  have hri : reach_indirect n adj u v = true := by
    by_contra hc
    simp only [Bool.not_eq_true] at hc
    exact hnp (by simp [transitive_reduction, he, hc])
  obtain ⟨m, h1, _, hm⟩ := (reach_indirect_spec n adj u v).mp hri
  cases m with
  | zero => omega
  | succ m2 =>
    obtain ⟨w, _, hw1, hw2⟩ := (bmul_eq_true n _ adj u v).mp hm
    exact ⟨w, mulPow_transGen m2 u w hw1, hw2⟩

theorem interval_finite_madj (n : Nat) (adj : Nat → Nat → Bool)
    (hbound : ∀ i j, adj i j = true → i < n ∧ j < n) (u v : Nat) :
    (interval (madj adj) u v).Finite := by
  refine interval_finite_of_targets (S := {w | w < n}) (Set.finite_lt_nat n) ?_ u v
  intro x w h
  exact (hbound x w h).2

/-- C1: on every finite DAG of build units (acyclic dependency relation,
hence no self-loops), the graph computed by `prune_graph` has exactly the
same reachability relation as the input and is still a DAG; and for every
acyclic boolean adjacency matrix (an `n × n` matrix: edges only between
indices below `n`), the matrix computed by the matrix-power
`transitive_reduction` inside `prune_deps` likewise has identical
reachability and is still a DAG. -/
theorem prune_preserves_reachability
    (g : List (String × Derivation)) (hacyc : Acyclic (edge g))
    (n : Nat) (adj : Nat → Nat → Bool)
    (hbound : ∀ i j, adj i j = true → i < n ∧ j < n)
    (hadj : Acyclic (madj adj)) :
    ((∀ a b, Relation.ReflTransGen (edge g) a b
        ↔ Relation.ReflTransGen (edge (pruneGraph g)) a b)
      ∧ Acyclic (edge (pruneGraph g)))
    ∧ ((∀ a b, Relation.ReflTransGen (madj adj) a b
        ↔ Relation.ReflTransGen (madj (transitive_reduction n adj)) a b)
      ∧ Acyclic (madj (transitive_reduction n adj))) := by
  refine ⟨⟨?_, ?_⟩, ⟨?_, ?_⟩⟩
  · exact reach_iff_of_prune (edge g) (edge (pruneGraph g))
      (edge_pruneGraph_sub g) hacyc (interval_finite_edge g) (prune_graph_wit g)
  · exact acyclic_of_le (edge_pruneGraph_sub g) hacyc
  · exact reach_iff_of_prune (madj adj) (madj (transitive_reduction n adj))
      (matrix_reduction_sub n adj) hadj (interval_finite_madj n adj hbound)
      (matrix_wit n adj)
  · exact acyclic_of_le (matrix_reduction_sub n adj) hadj

/-- C1 witness: the theorem applied to the concrete three-node DAG
`chainGraph` (acyclicity witnessed by `chainRank`) and to the `3 × 3`
matrix `chainAdj` (acyclicity witnessed by the identity rank). -/
theorem prune_preserves_reachability_witness :
    ((∀ a b, Relation.ReflTransGen (edge chainGraph) a b
        ↔ Relation.ReflTransGen (edge (pruneGraph chainGraph)) a b)
      ∧ Acyclic (edge (pruneGraph chainGraph)))
    ∧ ((∀ a b, Relation.ReflTransGen (madj chainAdj) a b
        ↔ Relation.ReflTransGen (madj (transitive_reduction 3 chainAdj)) a b)
      ∧ Acyclic (madj (transitive_reduction 3 chainAdj))) := by
  refine prune_preserves_reachability chainGraph
    (acyclic_of_rank _ chainRank ?_) 3 chainAdj ?_
    (acyclic_of_rank _ (fun i => i) ?_)
  · intro u v h
    have h2 : ∃ p ∈ chainGraph, p.1 = u ∧ v ∈ p.2.deps := by
      have h3 : v ∈ depsOf chainGraph u := h
      unfold depsOf at h3
      cases hl : alookup u chainGraph with
      | none => rw [hl] at h3; simp at h3
      | some d =>
        rw [hl] at h3
        exact ⟨(u, d), alookup_mem hl, rfl, h3⟩
    obtain ⟨p, hp, hpu, hpv⟩ := h2
    subst hpu
    fin_cases hp
    · simp at hpv
    · have hv : v = "a" := by simpa using hpv
      subst hv
      decide
    · have hv : v = "a" ∨ v = "b" := by simpa using hpv
      rcases hv with rfl | rfl <;> decide
  · intro i j h
    have h2 : ((i = 1 ∧ j = 0) ∨ (i = 2 ∧ j = 0)) ∨ (i = 2 ∧ j = 1) := by
      simpa [chainAdj] using h
    rcases h2 with (⟨rfl, rfl⟩ | ⟨rfl, rfl⟩) | ⟨rfl, rfl⟩ <;> omega
  · intro u v h
    have h2 : ((u = 1 ∧ v = 0) ∨ (u = 2 ∧ v = 0)) ∨ (u = 2 ∧ v = 1) := by
      simpa [chainAdj, madj] using h
    rcases h2 with (⟨rfl, rfl⟩ | ⟨rfl, rfl⟩) | ⟨rfl, rfl⟩ <;> decide

end Circler
